import Mathlib

/-!
Verification model of `gphoto_get.py` (wallentx/gphoto-get).

Python strings are modelled as `List Char` (sequences of code points).
External collaborators (the HTTP client, the HTML query facility that
yields the text of each script element, the filesystem, `mimetypes`,
and the JSON decoder of the standard library) are modelled explicitly:
the JSON decoder as an executable parser following the documented
grammar accepted by `json.loads`, the others as inputs of the model.
-/

namespace GPhotoGet

/-- Python `str` values: a sequence of code points. -/
abbrev Str := List Char

/-- Model of Python `needle in hay` for strings: substring containment. -/
def pyContains (hay needle : Str) : Bool :=
  needle.isPrefixOf hay ||
    (match hay with
     | [] => false
     | _ :: t => pyContains t needle)

/-- Rest of `s` after the first occurrence of `lit`, if any. -/
def afterFirst (lit : Str) (s : Str) : Option Str :=
  if lit.isPrefixOf s then some (s.drop lit.length)
  else
    match s with
    | [] => none
    | _ :: t => afterFirst lit t

/-- Characters of `s` strictly before the first close-paren, if one occurs. -/
def upToParen : Str → Option Str
  | [] => none
  | c :: t => if c = ')' then some [] else (upToParen t).map (c :: ·)

/-- The literal marker tested with `in` at line 166 of the source. -/
def afMarker : Str := "AF_initDataCallback".toList

/-- The literal prefix of the regex `AF_initDataCallback\((.*?)\);?`. -/
def afOpen : Str := "AF_initDataCallback(".toList

/-- Model of `re.search(r"AF_initDataCallback\((.*?)\);?", s, re.DOTALL)`
restricted to `group(1)`: the regex engine picks the leftmost match and,
for the non-greedy group, the shortest one, so `group(1)` is the text
between the first occurrence of the literal `AF_initDataCallback(` and
the first `)` after it.  If the first occurrence of the literal has no
later `)` then no later occurrence has one either, and there is no match. -/
def findCallbackArg (s : Str) : Option Str :=
  (afterFirst afOpen s).bind upToParen

/-- Model of `full_json_arg_str.replace("'", '"')` (line 172). -/
def squoteRepl (s : Str) : Str :=
  s.map (fun c => if c = '\x27' then '"' else c)

/-- The character class `\s` of the `re` module, on the ASCII range
(the payloads concerned are ASCII; the additional Unicode white-space
code points accepted by `\s` are not exercised). -/
def isSpacePy (c : Char) : Bool :=
  c = ' ' || c = '\t' || c = '\n' || c = '\r' || c = '\x0b' || c = '\x0c'

/-- The character class `[a-zA-Z_]` (first character of a bare key). -/
def isIdentStart (c : Char) : Bool :=
  ('a' ≤ c && c ≤ 'z') || ('A' ≤ c && c ≤ 'Z') || c = '_'

/-- The character class `[a-zA-Z0-9_]` (later characters of a bare key). -/
def isIdentCont (c : Char) : Bool :=
  isIdentStart c || ('0' ≤ c && c ≤ '9')

/-- Attempt to read `\s*([a-zA-Z_][a-zA-Z0-9_]*)\s*:` at the head of `s`,
returning the captured identifier and the rest after the colon.
Backtracking cannot produce a match the maximal munch misses: giving
back identifier characters would require them to match `\s` or `:`,
which identifier characters never do. -/
def matchKey (s : Str) : Option (Str × Str) :=
  let s1 := s.dropWhile isSpacePy
  match s1 with
  | [] => none
  | c :: _ =>
    if isIdentStart c then
      let ident := s1.takeWhile isIdentCont
      let s2 := (s1.dropWhile isIdentCont).dropWhile isSpacePy
      match s2 with
      | ':' :: rest => some (ident, rest)
      | _ => none
    else none

/-- Fuelled scan implementing
`re.sub(r"([{,])\s*([a-zA-Z_][a-zA-Z0-9_]*)\s*:", r'\1"\2":', s)`
(lines 173-177): `re.sub` replaces non-overlapping matches left to
right, and every match starts at a `\x7b` or `,`.  One unit of fuel is
spent per character consumed, and each successful replacement consumes
at least three characters, so fuel `s.length` never runs out. -/
def keyQuoteSubF : Nat → Str → Str
  | 0, s => s
  | _, [] => []
  | fuel + 1, c :: rest =>
    if c = '\x7b' || c = ',' then
      match matchKey rest with
      | some (ident, after) =>
        c :: '"' :: (ident ++ '"' :: ':' :: keyQuoteSubF fuel after)
      | none => c :: keyQuoteSubF fuel rest
    else c :: keyQuoteSubF fuel rest

/-- The key-quoting substitution of lines 173-177. -/
def keyQuoteSub (s : Str) : Str := keyQuoteSubF s.length s

/-- The full repair applied to the captured callback argument
(lines 172-177): single quotes become double quotes, then bare keys
are wrapped in double quotes. -/
def repairPayload (arg : Str) : Str := keyQuoteSub (squoteRepl arg)

/-! ## The values produced by `json.loads`

Python's decoder returns `None`, `bool`, numbers, `str`, `list` and
`dict`.  Numbers are kept as their source literal: the extractor never
computes with them, it only branches on `isinstance` checks and on
truthiness. -/

inductive Json where
  | null : Json
  | bool (b : Bool) : Json
  | num (lit : Str) : Json
  | str (s : Str) : Json
  | arr (xs : List Json) : Json
  | obj (fields : List (Str × Json)) : Json

/-- JSON inter-token white space accepted by the decoder. -/
def jsonWs (c : Char) : Bool :=
  c = ' ' || c = '\t' || c = '\n' || c = '\r'

/-- Skip JSON white space. -/
def dropWs (s : Str) : Str := s.dropWhile jsonWs

/-- Value of one hexadecimal digit (code points 0-9, a-f, A-F). -/
def hexVal (c : Char) : Option Nat :=
  let n := c.toNat
  if 48 ≤ n && n ≤ 57 then some (n - 48)
  else if 97 ≤ n && n ≤ 102 then some (n - 87)
  else if 65 ≤ n && n ≤ 70 then some (n - 55)
  else none

/-- Value of a four-digit hexadecimal escape. -/
def hex4 (a b c d : Char) : Option Nat :=
  match hexVal a, hexVal b, hexVal c, hexVal d with
  | some x, some y, some z, some w => some (x * 4096 + y * 256 + z * 16 + w)
  | _, _, _, _ => none

/-- Body of a JSON string after the opening quote, per the strict-mode
scanner of `json`: raw control characters are rejected, the escapes
`" \ / b f n r t uXXXX` are accepted, and a `\uXXXX` high surrogate
followed by a low surrogate escape is combined into one code point.
Python keeps a lone surrogate as such; a Lean `Char` cannot hold one,
so that unexercised corner is mapped to a parse failure. -/
def parseStrBody : Str → Option (Str × Str)
  | [] => none
  | c :: rest =>
    if c = '"' then some ([], rest)
    else if c = '\\' then
      match rest with
      | '"' :: r => (parseStrBody r).map (fun p => ('"' :: p.1, p.2))
      | '\\' :: r => (parseStrBody r).map (fun p => ('\\' :: p.1, p.2))
      | '/' :: r => (parseStrBody r).map (fun p => ('/' :: p.1, p.2))
      | 'b' :: r => (parseStrBody r).map (fun p => ('\x08' :: p.1, p.2))
      | 'f' :: r => (parseStrBody r).map (fun p => ('\x0c' :: p.1, p.2))
      | 'n' :: r => (parseStrBody r).map (fun p => ('\n' :: p.1, p.2))
      | 'r' :: r => (parseStrBody r).map (fun p => ('\r' :: p.1, p.2))
      | 't' :: r => (parseStrBody r).map (fun p => ('\t' :: p.1, p.2))
      | 'u' :: h1 :: h2 :: h3 :: h4 :: r =>
        match hex4 h1 h2 h3 h4 with
        | none => none
        | some n =>
          if n < 0xd800 then
            (parseStrBody r).map (fun p => (Char.ofNat n :: p.1, p.2))
          else if n < 0xdc00 then
            -- high surrogate: must be followed by a low surrogate escape
            match r with
            | '\\' :: 'u' :: g1 :: g2 :: g3 :: g4 :: r2 =>
              match hex4 g1 g2 g3 g4 with
              | none => none
              | some m =>
                if 0xdc00 ≤ m && m < 0xe000 then
                  (parseStrBody r2).map (fun p =>
                    (Char.ofNat (0x10000 + (n - 0xd800) * 0x400 + (m - 0xdc00))
                      :: p.1, p.2))
                else none
            | _ => none
          else if n < 0xe000 then none -- lone low surrogate
          else
            (parseStrBody r).map (fun p => (Char.ofNat n :: p.1, p.2))
      | _ => none
    else if c.toNat < 0x20 then none
    else (parseStrBody rest).map (fun p => (c :: p.1, p.2))

/-- ASCII decimal digit test, as used by the number grammar. -/
def isDigitC (c : Char) : Bool := '0' ≤ c && c ≤ '9'

/-- Match the number regex of the decoder,
`(-?(?:0|[1-9]\d*))(\.\d+)?([eE][-+]?\d+)?`, returning the literal and
the rest of the input. -/
def parseNumber (s : Str) : Option (Str × Str) :=
  let (neg, s1) : Str × Str :=
    match s with
    | '-' :: t => (['-'], t)
    | _ => ([], s)
  match s1 with
  | [] => none
  | c :: t =>
    if isDigitC c then
      let (intPart, r1) : Str × Str :=
        if c = '0' then (['0'], t)
        else (c :: t.takeWhile isDigitC, t.dropWhile isDigitC)
      let (fracPart, r2) : Str × Str :=
        match r1 with
        | '.' :: u =>
          let ds := u.takeWhile isDigitC
          if ds = [] then ([], r1) -- no digits: the frac group does not match
          else ('.' :: ds, u.dropWhile isDigitC)
        | _ => ([], r1)
      -- if the frac group failed to match, the regex still matches the int part
      let (expPart, r3) : Str × Str :=
        match r2 with
        | e :: u =>
          if e = 'e' || e = 'E' then
            let (sgn, u1) : Str × Str :=
              match u with
              | '+' :: v => (['+'], v)
              | '-' :: v => (['-'], v)
              | _ => ([], u)
            let ds := u1.takeWhile isDigitC
            if ds = [] then ([], r2)
            else (e :: (sgn ++ ds), u1.dropWhile isDigitC)
          else ([], r2)
        | _ => ([], r2)
      some (neg ++ intPart ++ fracPart ++ expPart, r3)
    else none

mutual

/-- One step of the decoder's `scan_once`, fuelled.  The constant
literals `NaN`, `Infinity` and `-Infinity` are accepted before the
number regex is tried, as in the scanner (`allow_nan` defaults on). -/
def pVal : Nat → Str → Option (Json × Str)
  | 0, _ => none
  | fuel + 1, s =>
    match s with
    | [] => none
    | '"' :: rest => (parseStrBody rest).map (fun p => (Json.str p.1, p.2))
    | '\x7b' :: rest => pObj fuel rest
    | '[' :: rest => pArr fuel rest
    | _ =>
      if ("null".toList).isPrefixOf s then some (Json.null, s.drop 4)
      else if ("true".toList).isPrefixOf s then some (Json.bool true, s.drop 4)
      else if ("false".toList).isPrefixOf s then some (Json.bool false, s.drop 5)
      else if ("NaN".toList).isPrefixOf s then some (Json.num ("NaN".toList), s.drop 3)
      else if ("Infinity".toList).isPrefixOf s then
        some (Json.num ("Infinity".toList), s.drop 8)
      else if ("-Infinity".toList).isPrefixOf s then
        some (Json.num ("-Infinity".toList), s.drop 9)
      else (parseNumber s).map (fun p => (Json.num p.1, p.2))

/-- Array tail after `[`: white space, then either `]` or the elements. -/
def pArr : Nat → Str → Option (Json × Str)
  | 0, _ => none
  | fuel + 1, s =>
    match dropWs s with
    | ']' :: r => some (Json.arr [], r)
    | s1 => pArrLoop fuel s1 []

/-- Element loop of the array decoder: value, white space, then `,` or `]`. -/
def pArrLoop : Nat → Str → List Json → Option (Json × Str)
  | 0, _, _ => none
  | fuel + 1, s, acc =>
    match pVal fuel s with
    | none => none
    | some (v, r) =>
      match dropWs r with
      | ',' :: r2 => pArrLoop fuel (dropWs r2) (acc ++ [v])
      | ']' :: r2 => some (Json.arr (acc ++ [v]), r2)
      | _ => none

/-- Object tail after a `\x7b`: white space, then `\x7d` or the members. -/
def pObj : Nat → Str → Option (Json × Str)
  | 0, _ => none
  | fuel + 1, s =>
    match dropWs s with
    | '\x7d' :: r => some (Json.obj [], r)
    | s1 => pObjLoop fuel s1 []

/-- Member loop of the object decoder: key string, white space, `:`,
white space, value, white space, then `,` (next key) or `\x7d`. -/
def pObjLoop : Nat → Str → List (Str × Json) → Option (Json × Str)
  | 0, _, _ => none
  | fuel + 1, s, acc =>
    match s with
    | '"' :: r =>
      match parseStrBody r with
      | none => none
      | some (k, r1) =>
        match dropWs r1 with
        | ':' :: r3 =>
          match pVal fuel (dropWs r3) with
          | none => none
          | some (v, r4) =>
            match dropWs r4 with
            | ',' :: r6 => pObjLoop fuel (dropWs r6) (acc ++ [(k, v)])
            | '\x7d' :: r6 => some (Json.obj (acc ++ [(k, v)]), r6)
            | _ => none
        | _ => none
    | _ => none

end

/-- Model of `json.loads`: decode one value surrounded by optional
white space; anything left over is an "Extra data" error.  Fuel is
spent only together with input consumption (at most four units per
consumed character across the dispatch and loop layers), so the chosen
amount never runs out. -/
def pyJsonLoads (s : Str) : Option Json :=
  match pVal (4 * s.length + 16) (dropWs s) with
  | some (v, rest) => if dropWs rest = [] then some v else none
  | none => none

/-! ## The extractor (lines 161-209 of `gphoto_get.py`) -/

/-- Python truthiness of a decoded value: `None` and empty containers
are falsy, a number is falsy when it equals zero (the digits of its
mantissa are all `0`; the non-finite literals are truthy). -/
def pyTruthy : Json → Bool
  | .null => false
  | .bool b => b
  | .num lit =>
    if lit = ("NaN".toList) || lit = ("Infinity".toList) || lit = ("-Infinity".toList)
    then true
    else !(((lit.takeWhile (fun c => c ≠ 'e' && c ≠ 'E')).filter isDigitC).all (· = '0'))
  | .str s => !s.isEmpty
  | .arr xs => !xs.isEmpty
  | .obj fs => !fs.isEmpty

/-- Model of `dict.get(key)` on the dictionary built by the decoder:
with duplicate keys the later member wins, and a missing key gives
`None`. -/
def dictGet (fs : List (Str × Json)) (k : Str) : Option Json :=
  fs.foldl (fun acc kv => if kv.1 = k then some kv.2 else acc) none

/-- The key `"data"` looked up at line 181. -/
def dataKey : Str := "data".toList

/-- The trusted-host substring tested at line 197. -/
def gHost : Str := "googleusercontent.com".toList

/-- Lines 202-205: `clean_id = raw_id`, then if it is a string of
length at least 6 it becomes `clean_id[6:14]`; any other value passes
through unchanged. -/
def cleanId : Json → Json
  | .str s => if 6 ≤ s.length then .str ((s.drop 6).take 8) else .str s
  | v => v

/-- The acceptance test of lines 191-197: a raw record is accepted
when it is a list of length at least 2 whose element 1 is a non-empty
list whose first element is a string containing `googleusercontent.com`. -/
def validRecord : Json → Bool
  | .arr (_ :: .arr (.str u :: _) :: _) => pyContains u gHost
  | _ => false

/-- The entry built from an accepted record (lines 199-207):
`(photo_url, clean_id)` where `photo_url` is element `[1][0]` and
`clean_id` derives from element `[0]`. -/
def recordEntry : Json → Str × Json
  | .arr (x0 :: .arr (.str u :: _) :: _) => (u, cleanId x0)
  | _ => ([], .null)

/-- The record loop of lines 190-207: accepted records append their
entry, all others are passed over silently. -/
def recordsLoop : List Json → List (Str × Json)
  | [] => []
  | r :: rest =>
    if validRecord r then recordEntry r :: recordsLoop rest
    else recordsLoop rest

/-- The guard of lines 183-188 on `data_array`: truthy, a list, of
length above 1, with a list at index 1. -/
def dataGuard : Option Json → Bool
  | some (.arr l) =>
    pyTruthy (.arr l) && decide (1 < l.length) &&
      (match l.get? 1 with
       | some (.arr _) => true
       | _ => false)
  | _ => false

/-- The raw photo records `data_array[1]` read at line 189 (meaningful
when `dataGuard` holds). -/
def dataRecords : Option Json → List Json
  | some (.arr l) =>
    match l.get? 1 with
    | some (.arr records) => records
    | _ => []
  | _ => []

/-- Processing of one script body (lines 164-209).  `Except.error`
models an uncaught `AttributeError`: only `json.JSONDecodeError` is
caught, so when the repaired payload decodes to a value that is not a
dictionary, the attribute lookup `.get` at line 181 raises and the
whole extraction aborts. -/
def processBlock (script : Str) : Except Unit (List (Str × Json)) :=
  if !script.isEmpty && pyContains script afMarker then
    match findCallbackArg script with
    | none => .ok []
    | some arg =>
      match pyJsonLoads (repairPayload arg) with
      | none => .ok [] -- json.JSONDecodeError is caught and passed over
      | some (.obj fs) =>
        if dataGuard (dictGet fs dataKey) then
          .ok (recordsLoop (dataRecords (dictGet fs dataKey)))
        else .ok [] -- structural mismatch: the block is skipped
      | some _ => .error () -- AttributeError: no attribute get
  else .ok []

/-- The script loop of lines 164-209 over the text of every script
element, accumulating entries in source order; an uncaught error in
one block aborts the whole loop. -/
def extract : List Str → Except Unit (List (Str × Json))
  | [] => .ok []
  | s :: rest =>
    match processBlock s with
    | .error e => .error e
    | .ok es =>
      match extract rest with
      | .error e => .error e
      | .ok ts => .ok (es ++ ts)

/-! ## Concrete inputs used by the end-to-end statements -/

/-- The mock album page script of the end-to-end scenario. -/
def mockAlbumScript : Str :=
  ("AF_initDataCallback(\x7bdata: [\x27x\x27, [ [[\x27abcdefghijklmn\x27], [\x27https://lh3.googleusercontent.com/abc\x27]] ]]\x7d);").toList

/-- The media URL embedded in `mockAlbumScript`. -/
def mockUrl : Str := ("https://lh3.googleusercontent.com/abc").toList

/-- The raw identifier embedded in `mockAlbumScript`: a one-element
list, not a string. -/
def mockRawId : Json := Json.arr [Json.str (("abcdefghijklmn").toList)]

/-- A script whose repaired payload decodes to the empty JSON array:
it parses, it is not the expected shape, and it is not a dictionary. -/
def emptyArrScript : Str := ("AF_initDataCallback([]);").toList

/-- A script whose payload is an object whose `data` field is a
string: the shape guard fails. -/
def badShapeScript : Str :=
  ("AF_initDataCallback(\x7bdata: \x27x\x27\x7d);").toList

/-! ## Filesystem model and the sync check (lines 80-94, 216-235)

The output directory is modelled as `Option (List DirEntry)`: `none`
when the directory does not exist, otherwise the directory entries
with their regular-file status.  Paths are flat names, which is what
`os.listdir` yields. -/

structure DirEntry where
  name : Str
  isFile : Bool
deriving DecidableEq

/-- Index of the last `.` in a name, if any. -/
def lastDot : Str → Option Nat
  | [] => none
  | c :: t =>
    match lastDot t with
    | some i => some (i + 1)
    | none => if c = '.' then some 0 else none

/-- Model of `os.path.splitext` on a bare file name: split at the last
dot, except that a name whose every character before that dot is a dot
(a hidden file such as `.bashrc`) is not split. -/
def pySplitExt (p : Str) : Str × Str :=
  match lastDot p with
  | none => (p, [])
  | some i =>
    if (p.take i).all (· = '.') then (p, [])
    else (p.take i, p.drop i)

/-- Well-formedness of a produced file extension: it starts with a
dot and has no further dot.  Every extension the fallback table can
produce has this shape, and so does every value the real
`mimetypes.guess_extension` returns. -/
def extWf (ext : Str) : Bool :=
  match ext with
  | '.' :: t => t.all (fun c => c ≠ '.')
  | _ => false

/-- The listing scan inside `check_file_exists` (lines 85-93): the
first entry that starts with `base`, is a regular file, and whose stem
equals `base` exactly is returned. -/
def scanListing (base : Str) : List DirEntry → Option Str
  | [] => none
  | f :: rest =>
    if base.isPrefixOf f.name && f.isFile then
      if (pySplitExt f.name).1 = base then some f.name
      else scanListing base rest
    else scanListing base rest

/-- `check_file_exists(output_dir, base_name)` (lines 80-94) for a
string `base_name`: `None` when the directory does not exist,
otherwise the first listing entry whose stem equals `base_name`.  The
returned path is reported as the bare file name; the caller only tests
it for truthiness. -/
def checkFileExists (dir : Option (List DirEntry)) (base : Str) : Option Str :=
  match dir with
  | none => none
  | some listing => scanListing base listing

/-- `check_file_exists` as called from `main` with an arbitrary
`clean_id`: when the id is not a string and the existing directory has
at least one entry, `existing_file.startswith(base_name)` raises an
uncaught `TypeError` on the first iteration, modelled as
`Except.error`. -/
def checkFileExistsJ (dir : Option (List DirEntry)) (pid : Json) :
    Except Unit (Option Str) :=
  match dir with
  | none => .ok none
  | some [] => .ok none
  | some listing =>
    match pid with
    | .str s => .ok (scanListing s listing)
    | _ => .error ()

/-- The sync-mode partition loop of lines 225-233: entries whose id
has a matching file are tallied as skipped, the others are queued for
download in source order. -/
def runSyncLoop (dir : Option (List DirEntry)) :
    List (Str × Json) → Except Unit (List (Str × Json) × Nat)
  | [] => .ok ([], 0)
  | (u, pid) :: rest =>
    match checkFileExistsJ dir pid with
    | .error e => .error e
    | .ok ex =>
      match runSyncLoop dir rest with
      | .error e => .error e
      | .ok (td, sk) =>
        match ex with
        | some _ => .ok (td, sk + 1)
        | none => .ok ((u, pid) :: td, sk)

/-! ## The downloader (lines 97-132) and the download loop (lines 260-266) -/

/-- Outcome of the network and write effects of one `download_photo`
call, as decided by the environment: a successful streamed download
with the given `Content-Type` header, a `requests` transport error
(raised by the GET, by `raise_for_status`, or while iterating the
body), or an OS error raised by `open`/`write`. -/
inductive DlResult where
  | ok (contentType : Str) : DlResult
  | reqError : DlResult
  | writeError (contentType : Str) : DlResult

/-- The fallback extension table of lines 111-119, keyed by substring
containment on the content type. -/
def extFallback (ct : Str) : Str :=
  if pyContains ct (("image/jpeg").toList) then (".jpg").toList
  else if pyContains ct (("image/png").toList) then (".png").toList
  else if pyContains ct (("video/mp4").toList) then (".mp4").toList
  else (".bin").toList

/-- Extension choice of lines 108-119: `mimetypes.guess_extension`
(an external table, supplied as a function), then — when it yields
nothing truthy — the literal fallbacks. -/
def extFor (guessExt : Str → Option Str) (ct : Str) : Str :=
  match guessExt ct with
  | some e =>
    if e.isEmpty then extFallback ct else e
  | none => extFallback ct

/-- A download environment in which the second URL's write raises an
OS error and the others succeed. -/
def c4Download : Str × Str → DlResult := fun p =>
  if p.1 = ("u2").toList then .writeError (("image/png").toList)
  else .ok (("image/png").toList)

mutual

/-- Model of Python `repr` for decoded values, used only through
`pyFStr` below for values that are not strings.  Number and string
corner cases of the real `repr` (float re-formatting, quote selection
and escaping) are simplified; no theorem below evaluates them. -/
def pyRepr : Json → Str
  | .null => "None".toList
  | .bool true => "True".toList
  | .bool false => "False".toList
  | .num lit => lit
  | .str s => '\x27' :: s ++ ['\x27']
  | .arr xs => '[' :: pyReprSeq xs ++ [']']
  | .obj fs => '\x7b' :: pyReprFields fs ++ ['\x7d']

/-- Comma-separated `repr` of list elements. -/
def pyReprSeq : List Json → Str
  | [] => []
  | [x] => pyRepr x
  | x :: xs => pyRepr x ++ (", ".toList) ++ pyReprSeq xs

/-- Comma-separated `repr` of dictionary items. -/
def pyReprFields : List (Str × Json) → Str
  | [] => []
  | [(k, v)] => pyRepr (.str k) ++ (": ".toList) ++ pyRepr v
  | (k, v) :: fs => pyRepr (.str k) ++ (": ".toList) ++ pyRepr v ++ (", ".toList)
      ++ pyReprFields fs

end

/-- Model of the f-string conversion `f"\x7bbase_name\x7d"` at line 121:
`str()` of a string is the string itself, of any other value its
`repr`. -/
def pyFStr : Json → Str
  | .str s => s
  | v => pyRepr v

/-- Result of one `download_photo` call (lines 97-132): the name of
the written file on success, `failure` when the caught
`RequestException` path returns `None`, and `crash` for an uncaught
OS error during the write, which leaves a partially written file. -/
inductive DlOutcome where
  | success (filename : Str) : DlOutcome
  | failure : DlOutcome
  | crash (partialFile : Str) : DlOutcome

/-- `download_photo(url, output_dir, photo_id)` given the effect
outcome chosen by the environment. -/
def downloadPhoto (guessExt : Str → Option Str) (res : DlResult)
    (pid : Str) : DlOutcome :=
  match res with
  | .reqError => .failure
  | .ok ct => .success (pid ++ extFor guessExt ct)
  | .writeError ct => .crash (pid ++ extFor guessExt ct)

/-- A write into the directory listing.  `os.listdir` never shows the
same name twice; re-writing an existing name is modelled as appending
a shadowing regular-file entry, which leaves every stem-membership
question unchanged. -/
def fsWrite (l : List DirEntry) (n : Str) : List DirEntry :=
  l ++ [⟨n, true⟩]

/-- The download loop of lines 260-266, returning the success tally,
the failure tally, the number of items attempted, the final directory
listing, and whether the loop ran to completion (`false` when an
uncaught OS error aborted it). -/
def dlLoop (guessExt : Str → Option Str) (download : Str × Str → DlResult)
    (fs : List DirEntry) :
    List (Str × Json) → Nat × Nat × Nat × List DirEntry × Bool
  | [] => (0, 0, 0, fs, true)
  | (u, pid) :: rest =>
    let pidS := pyFStr pid
    match downloadPhoto guessExt (download (u, pidS)) pidS with
    | .success name =>
      let (s, f, a, fs2, done) := dlLoop guessExt download (fsWrite fs name) rest
      (s + 1, f, a + 1, fs2, done)
    | .failure =>
      let (s, f, a, fs2, done) := dlLoop guessExt download fs rest
      (s, f + 1, a + 1, fs2, done)
    | .crash name => (0, 0, 1, fsWrite fs name, false)

/-! ## The orchestrator `main` (lines 135-276) -/

/-- The effects and collaborators of one run: the resolver outcome,
the fetched page body, the HTML query facility (text of each script
element of a page), the `mimetypes` table, the initial output
directory, the per-item download outcomes, and the sync flag. -/
structure World where
  resolved : Option Str
  page : Option Str
  scriptsOf : Str → List Str
  guessExt : Str → Option Str
  fs0 : Option (List DirEntry)
  download : Str × Str → DlResult
  sync : Bool

/-- Observable result of one run: process exit status, the counts
reported in the summary, the number of download attempts made, and
the final state of the output directory. -/
structure RunResult where
  exit : Nat
  total : Nat
  skipped : Nat
  succeeded : Nat
  failed : Nat
  attempted : Nat
  fsAfter : Option (List DirEntry)
deriving DecidableEq

/-- `main` (lines 135-276).  An uncaught exception terminates the
interpreter with exit status 1; `sys.exit(1)` is exit 1; falling off
the end of `main`, or `sys.exit(0)`, is exit 0.  The output directory
is created (line 220-221) only after the zero-photos early exit. -/
def mainRun (w : World) : RunResult :=
  match w.resolved with
  | none => ⟨1, 0, 0, 0, 0, 0, w.fs0⟩ -- resolve failed: exit 1
  | some u =>
    if u.isEmpty then ⟨1, 0, 0, 0, 0, 0, w.fs0⟩ -- falsy URL: exit 1
    else
      match w.page with
      | none => ⟨1, 0, 0, 0, 0, 0, w.fs0⟩ -- fetch failed: exit 1
      | some html =>
        if html.isEmpty then ⟨1, 0, 0, 0, 0, 0, w.fs0⟩ -- falsy body: exit 1
        else
          match extract (w.scriptsOf html) with
          | .error _ => ⟨1, 0, 0, 0, 0, 0, w.fs0⟩ -- uncaught AttributeError
          | .ok entries =>
            let total := entries.length
            if total = 0 then ⟨0, 0, 0, 0, 0, 0, w.fs0⟩ -- warning, exit 0
            else
              let fs1 : List DirEntry := w.fs0.getD [] -- makedirs if absent
              match
                if w.sync then runSyncLoop (some fs1) entries
                else .ok (entries, 0)
              with
              | .error _ => ⟨1, total, 0, 0, 0, 0, some fs1⟩ -- uncaught TypeError
              | .ok (toDownload, skipped) =>
                if toDownload.isEmpty then
                  ⟨0, total, skipped, 0, 0, 0, some fs1⟩ -- all up to date
                else
                  let (s, f, a, fs2, done) :=
                    dlLoop w.guessExt w.download fs1 toDownload
                  ⟨if done then 0 else 1, total, skipped, s, f, a, some fs2⟩

/-! ## Concrete worlds for the orchestrator claims -/

/-- A mock album page with one record whose raw identifier is an
18-character string. -/
def mockScriptLong : Str :=
  ("AF_initDataCallback(\x7bdata: [\x27x\x27, [ [\x27AAAAAAOlxzhFkvXXXX\x27, [\x27https://lh3.googleusercontent.com/y\x27]] ]]\x7d);").toList

/-- The media URL of `mockScriptLong`. -/
def urlY : Str := ("https://lh3.googleusercontent.com/y").toList

/-- A mock album page with one record whose raw identifier is the
6-character string `abcdef`, so its derived `stable_id` is empty. -/
def mockScriptSix : Str :=
  ("AF_initDataCallback(\x7bdata: [\x27x\x27, [ [\x27abcdef\x27, [\x27https://lh3.googleusercontent.com/x\x27]] ]]\x7d);").toList

/-- A run in which resolve and fetch succeed, one entry is extracted,
and the download's file write raises an uncaught OS error. -/
def wCrash : World :=
  ⟨some (("u").toList), some (("h").toList), fun _ => [mockScriptLong],
    fun _ => none, none, fun _ => .writeError (("image/png").toList), false⟩

/-- The same run, but the download fails with a transport error. -/
def wTransport : World := { wCrash with download := fun _ => .reqError }

/-- A sync-mode run over the 6-character-identifier album, all
downloads succeeding. -/
def wShortId : World :=
  { wCrash with
    scriptsOf := fun _ => [mockScriptSix]
    download := fun _ => .ok (("image/png").toList)
    sync := true }

/-- A sync-mode run over the 18-character-identifier album, all
downloads succeeding. -/
def wLongId : World := { wShortId with scriptsOf := fun _ => [mockScriptLong] }

/-! ## Helper lemmas -/

theorem pyContains_iff {hay needle : Str} :
    pyContains hay needle = true ↔ needle <:+: hay := by
  induction hay with
  | nil =>
    rw [pyContains]
    simp [List.isPrefixOf_iff_prefix]
  | cons c t ih =>
    rw [pyContains]
    simp only [Bool.or_eq_true, List.isPrefixOf_iff_prefix, ih,
      List.infix_cons_iff]

theorem pyContains_ne_nil {b needle : Str} (hn : needle ≠ [])
    (h : pyContains b needle = true) : b ≠ [] := by
  rintro rfl
  rcases pyContains_iff.mp h with ⟨s, t, hst⟩
  have hlen := congrArg List.length hst
  simp only [List.length_append, List.length_nil] at hlen
  exact hn (List.eq_nil_of_length_eq_zero (by omega))

theorem recordsLoop_append (l1 l2 : List Json) :
    recordsLoop (l1 ++ l2) = recordsLoop l1 ++ recordsLoop l2 := by
  induction l1 with
  | nil => simp [recordsLoop]
  | cons r t ih =>
    simp only [List.cons_append, recordsLoop]
    split <;> simp [ih]

theorem recordsLoop_all_valid {records : List Json}
    (h : ∀ r ∈ records, validRecord r = true) :
    recordsLoop records = records.map recordEntry := by
  induction records with
  | nil => rfl
  | cons r t ih =>
    rw [recordsLoop, if_pos (h r (List.mem_cons_self r t)),
      List.map_cons, ih (fun x hx => h x (List.mem_cons_of_mem r hx))]

theorem validRecord_entry_contains {r : Json} (h : validRecord r = true) :
    pyContains (recordEntry r).1 gHost = true := by
  unfold validRecord at h
  split at h
  · rename_i x0 u rest1 rest2
    simpa [recordEntry] using h
  · exact absurd h (by simp)

theorem mem_recordsLoop {e : Str × Json} {records : List Json}
    (h : e ∈ recordsLoop records) : pyContains e.1 gHost = true := by
  induction records with
  | nil => simp [recordsLoop] at h
  | cons r t ih =>
    rw [recordsLoop] at h
    by_cases hv : validRecord r = true
    · rw [if_pos hv] at h
      rcases List.mem_cons.mp h with rfl | hmem
      · exact validRecord_entry_contains hv
      · exact ih hmem
    · rw [if_neg hv] at h
      exact ih h

theorem processBlock_ok_mem {s : Str} {es : List (Str × Json)}
    {e : Str × Json} (hpb : processBlock s = .ok es) (he : e ∈ es) :
    pyContains e.1 gHost = true := by
  unfold processBlock at hpb
  split at hpb
  · split at hpb
    · injection hpb with h; subst h; simp at he
    · split at hpb
      · injection hpb with h; subst h; simp at he
      · split at hpb
        · injection hpb with h; subst h
          exact mem_recordsLoop he
        · injection hpb with h; subst h; simp at he
      · exact absurd hpb (by simp)
  · injection hpb with h; subst h; simp at he

theorem extract_cons_ok {s : Str} {rest : List Str}
    {es ts : List (Str × Json)} (h1 : processBlock s = .ok es)
    (h2 : extract rest = .ok ts) :
    extract (s :: rest) = .ok (es ++ ts) := by
  rw [extract, h1, h2]

theorem extract_ok_mem {scripts : List Str} {entries : List (Str × Json)}
    {e : Str × Json} (hx : extract scripts = .ok entries)
    (he : e ∈ entries) : pyContains e.1 gHost = true := by
  induction scripts generalizing entries with
  | nil =>
    rw [extract] at hx
    injection hx with h; subst h; simp at he
  | cons s rest ih =>
    rw [extract] at hx
    rcases hpb : processBlock s with _ | es <;> rw [hpb] at hx
    · exact absurd hx (by simp)
    · rcases hr : extract rest with _ | ts <;> rw [hr] at hx
      · exact absurd hx (by simp)
      · injection hx with h; subst h
        rcases List.mem_append.mp he with hmem | hmem
        · exact processBlock_ok_mem hpb hmem
        · exact ih hr hmem

theorem extract_skip {b : Str} (pre post : List Str)
    (hb : processBlock b = .ok []) :
    extract (pre ++ b :: post) = extract (pre ++ post) := by
  induction pre with
  | nil =>
    simp only [List.nil_append]
    rw [extract, hb]
    rcases h : extract post with _ | ts <;> simp
  | cons p t ih =>
    simp only [List.cons_append]
    rw [extract, extract, ih]

theorem processBlock_guard_false {b arg : Str} {fields : List (Str × Json)}
    (hm : pyContains b afMarker = true)
    (hf : findCallbackArg b = some arg)
    (hp : pyJsonLoads (repairPayload arg) = some (.obj fields))
    (hg : dataGuard (dictGet fields dataKey) = false) :
    processBlock b = .ok [] := by
  have hb : b ≠ [] := pyContains_ne_nil (by decide) hm
  have hcond : (!b.isEmpty && pyContains b afMarker) = true := by
    cases b with
    | nil => exact absurd rfl hb
    | cons c t => simp [hm]
  unfold processBlock
  rw [if_pos hcond]
  simp only [hf, hp, hg]
  simp

theorem processBlock_guard_true {b arg : Str} {fields : List (Str × Json)}
    (hm : pyContains b afMarker = true)
    (hf : findCallbackArg b = some arg)
    (hp : pyJsonLoads (repairPayload arg) = some (.obj fields))
    (hg : dataGuard (dictGet fields dataKey) = true) :
    processBlock b = .ok (recordsLoop (dataRecords (dictGet fields dataKey))) := by
  have hb : b ≠ [] := pyContains_ne_nil (by decide) hm
  have hcond : (!b.isEmpty && pyContains b afMarker) = true := by
    cases b with
    | nil => exact absurd rfl hb
    | cons c t => simp [hm]
  unfold processBlock
  rw [if_pos hcond]
  simp only [hf, hp, hg]
  simp

/-! ## Claims -/

/-- Claim C1 (confirmed).  For every raw identifier string of length
at least 6, the derived `stable_id` is the substring at offsets 6
through 13 — the characters `(s.drop 6).take 8`, eight of them when
the identifier has length at least 14, all the remaining ones
otherwise, exactly as the slice `s[6:14]` — and an identifier shorter
than 6 characters passes through unchanged. -/
theorem c1_stable_id_slice (s : Str) :
    (6 ≤ s.length → cleanId (.str s) = .str ((s.drop 6).take 8)) ∧
    (s.length < 6 → cleanId (.str s) = .str s) := by
  constructor
  · intro h
    rw [cleanId, if_pos h]
  · intro h
    rw [cleanId, if_neg (by omega)]

/-- Witness for C1 at a 14-character and at a 3-character identifier. -/
theorem c1_stable_id_slice_witness :
    cleanId (.str (("abcdefghijklmn").toList)) = .str (("ghijklmn").toList) ∧
    cleanId (.str (("abc").toList)) = .str (("abc").toList) := by
  constructor
  · rw [(c1_stable_id_slice (("abcdefghijklmn").toList)).1 (by decide)]
    rfl
  · exact (c1_stable_id_slice (("abc").toList)).2 (by decide)

/-- Claim C10 (confirmed).  An accepted record whose element 0 is not
a string contributes its element 0 unchanged as the entry's
`stable_id`: the offset-6 slice is applied only to strings. -/
theorem c10_nonstring_id_unchanged (x0 : Json) (u : Str)
    (inner more : List Json) (rest : List Json)
    (hns : ∀ t, x0 ≠ .str t) (hu : pyContains u gHost = true) :
    recordsLoop ((.arr (x0 :: .arr (.str u :: inner) :: more)) :: rest) =
      (u, x0) :: recordsLoop rest := by
  have hclean : cleanId x0 = x0 := by
    cases x0 with
    | str t => exact absurd rfl (hns t)
    | null => rfl
    | bool b => rfl
    | num l => rfl
    | arr xs => rfl
    | obj fs => rfl
  rw [recordsLoop, if_pos (by simpa [validRecord] using hu)]
  simp [recordEntry, hclean]

/-- Witness for C10: a record whose element 0 is itself a list. -/
theorem c10_nonstring_id_unchanged_witness :
    recordsLoop [.arr [mockRawId, .arr [.str mockUrl]]] = [(mockUrl, mockRawId)] := by
  have h := c10_nonstring_id_unchanged mockRawId mockUrl [] [] []
    (fun t h => by exact Json.noConfusion h) (by decide)
  simpa using h

/-- Claim C2 is refuted at its own input: the mock page's single
record has `[\x27abcdefghijklmn\x27]` — a one-element list, not a
string — at element 0, so the entry's `stable_id` is that list
unchanged, not characters 6 through 13 of the string. -/
theorem c2_stable_id_is_list_not_slice :
    extract [mockAlbumScript] = .ok [(mockUrl, mockRawId)] ∧
    mockRawId ≠ .str ((("abcdefghijklmn").toList.drop 6).take 8) := by
  exact ⟨rfl, fun h => Json.noConfusion h⟩

/-- Claim C2 as amended (corrected).  Extraction on the mock album
page yields exactly one Photo Entry whose `media_url` is the
googleusercontent URL and whose `stable_id` is the record's element 0
unchanged — the one-element list containing `abcdefghijklmn` — since
that element is not a string. -/
theorem c2_mock_page_extraction :
    extract [mockAlbumScript] = .ok [(mockUrl, mockRawId)] := rfl

/-- Claim C3 is refuted: the payload `[]` of this block parses as
JSON and does not have the expected shape (it is not a top-level
object at all), yet the block is not skipped — the attribute lookup
`.get` raises an uncaught `AttributeError` and extraction aborts. -/
theorem c3_nonobject_payload_error :
    findCallbackArg emptyArrScript = some (("[]").toList) ∧
    pyJsonLoads (repairPayload (("[]").toList)) = some (.arr []) ∧
    extract [emptyArrScript] = .error () := ⟨rfl, rfl, rfl⟩

/-- Claim C3 as amended (corrected).  For every script block whose
repaired payload parses as a JSON object that fails the expected-shape
guard on its `data` field, the block is skipped with no error raised
and extraction continues with the remaining blocks.  (A payload that
parses as JSON but is not an object instead raises an uncaught
`AttributeError`.) -/
theorem c3_object_mismatch_skipped (pre post : List Str) (b arg : Str)
    (fields : List (Str × Json))
    (hm : pyContains b afMarker = true)
    (hf : findCallbackArg b = some arg)
    (hp : pyJsonLoads (repairPayload arg) = some (.obj fields))
    (hg : dataGuard (dictGet fields dataKey) = false) :
    extract (pre ++ b :: post) = extract (pre ++ post) :=
  extract_skip pre post (processBlock_guard_false hm hf hp hg)

/-- Witness for C3: the object-payload block with a non-list `data`
is dropped between two copies of the mock album block. -/
theorem c3_object_mismatch_skipped_witness :
    extract [mockAlbumScript, badShapeScript, mockAlbumScript] =
      extract [mockAlbumScript, mockAlbumScript] :=
  c3_object_mismatch_skipped [mockAlbumScript] [mockAlbumScript]
    badShapeScript (("\x7bdata: \x27x\x27\x7d").toList)
    [(("data").toList, .str (("x").toList))]
    (by decide) rfl rfl rfl

/-- Claim C5 (confirmed).  First part: a block whose payload is
well-formed (an object whose `data` is a list of length above 1 with a
list at index 1) and whose `data[1]` holds only valid records yields
exactly one entry per record, in record order.  Second part: the
entries of consecutive script blocks are concatenated in block
order. -/
theorem c5_valid_records_in_order :
    (∀ (b arg : Str) (fields : List (Str × Json)) (l records : List Json),
      pyContains b afMarker = true →
      findCallbackArg b = some arg →
      pyJsonLoads (repairPayload arg) = some (.obj fields) →
      dictGet fields dataKey = some (.arr l) →
      1 < l.length →
      l.get? 1 = some (.arr records) →
      (∀ r ∈ records, validRecord r = true) →
      processBlock b = .ok (records.map recordEntry) ∧
        (records.map recordEntry).length = records.length) ∧
    (∀ (s : Str) (rest : List Str) (es ts : List (Str × Json)),
      processBlock s = .ok es → extract rest = .ok ts →
      extract (s :: rest) = .ok (es ++ ts)) := by
  constructor
  · intro b arg fields l records hm hf hp hd hlen hget hvalid
    have hne : l.isEmpty = false := by
      cases l with
      | nil => simp at hlen
      | cons x t => rfl
    have hguard : dataGuard (dictGet fields dataKey) = true := by
      rw [hd]
      simp only [dataGuard]
      rw [hget]
      simp [pyTruthy, hne, hlen]
    have hrecs : dataRecords (dictGet fields dataKey) = records := by
      rw [hd]
      simp only [dataRecords]
      rw [hget]
    refine ⟨?_, by simp⟩
    rw [processBlock_guard_true hm hf hp hguard, hrecs,
      recordsLoop_all_valid hvalid]
  · intro s rest es ts h1 h2
    exact extract_cons_ok h1 h2

/-- Witness for C5 at the mock album page: its single record is valid
and extraction of the block yields exactly that one entry. -/
theorem c5_valid_records_in_order_witness :
    processBlock mockAlbumScript =
      .ok ([Json.arr [mockRawId, .arr [.str mockUrl]]].map recordEntry) ∧
    extract [mockAlbumScript, mockAlbumScript] =
      .ok ([(mockUrl, mockRawId)] ++ [(mockUrl, mockRawId)]) := by
  constructor
  · exact (c5_valid_records_in_order.1 mockAlbumScript
      (("\x7bdata: [\x27x\x27, [ [[\x27abcdefghijklmn\x27], [\x27https://lh3.googleusercontent.com/abc\x27]] ]]\x7d").toList)
      [(("data").toList,
        .arr [.str (("x").toList), .arr [.arr [mockRawId, .arr [.str mockUrl]]]])]
      [.str (("x").toList), .arr [.arr [mockRawId, .arr [.str mockUrl]]]]
      [.arr [mockRawId, .arr [.str mockUrl]]]
      (by decide) rfl rfl rfl (by decide) rfl (by decide)).1
  · exact c5_valid_records_in_order.2 mockAlbumScript [mockAlbumScript]
      [(mockUrl, mockRawId)] [(mockUrl, mockRawId)] rfl rfl

/-- Claim C6 (confirmed).  First part: every entry produced by
extraction has a `media_url` containing `googleusercontent.com`.
Second part: a record of the accepted shape whose URL lacks that
substring is silently excluded — the record loop's result is as if
the record were absent, with no failure recorded anywhere. -/
theorem c6_trusted_host_invariant :
    (∀ (scripts : List Str) (entries : List (Str × Json)) (e : Str × Json),
      extract scripts = .ok entries → e ∈ entries →
      pyContains e.1 gHost = true) ∧
    (∀ (pre post : List Json) (x0 : Json) (u : Str) (inner more : List Json),
      pyContains u gHost = false →
      recordsLoop (pre ++ (.arr (x0 :: .arr (.str u :: inner) :: more)) :: post) =
        recordsLoop (pre ++ post)) := by
  constructor
  · intro scripts entries e hx he
    exact extract_ok_mem hx he
  · intro pre post x0 u inner more hu
    rw [recordsLoop_append, recordsLoop_append, recordsLoop,
      if_neg (by simp [validRecord, hu])]

/-- Witness for C6: the mock entry's URL contains the trusted
substring, and an untrusted record is excluded. -/
theorem c6_trusted_host_invariant_witness :
    pyContains mockUrl gHost = true ∧
    recordsLoop [.arr [.str [], .arr [.str (("https://evil.example/a").toList)]]] = [] := by
  constructor
  · exact c6_trusted_host_invariant.1 [mockAlbumScript] [(mockUrl, mockRawId)]
      (mockUrl, mockRawId) rfl (by simp)
  · simpa using c6_trusted_host_invariant.2 [] [] (.str [])
      (("https://evil.example/a").toList) [] [] (by decide)

/-! ## Helper lemmas about the filesystem model -/

theorem lastDot_append_some {xs ys : Str} {i : Nat}
    (h : lastDot ys = some i) : lastDot (xs ++ ys) = some (xs.length + i) := by
  induction xs with
  | nil => simpa using h
  | cons c t ih =>
    rw [List.cons_append, lastDot, ih]
    simp only [List.length_cons, Option.some.injEq]
    omega

theorem lastDot_eq_none_iff {s : Str} :
    lastDot s = none ↔ ∀ c ∈ s, c ≠ '.' := by
  induction s with
  | nil => simp [lastDot]
  | cons c t ih =>
    rw [lastDot]
    cases h : lastDot t with
    | none =>
      rw [ih] at h
      by_cases hc : c = '.'
      · simp [hc]
      · simp only [if_neg hc]
        constructor
        · intro _ x hx
          rcases List.mem_cons.mp hx with rfl | hx2
          · exact hc
          · exact h x hx2
        · intro _
          trivial
    | some i =>
      constructor
      · intro hx
        exact absurd hx (by simp)
      · intro hall
        have hn : lastDot t = none :=
          ih.mpr fun x hx => hall x (List.mem_cons_of_mem c hx)
        rw [hn] at h
        exact absurd h (by simp)

theorem pySplitExt_append {s ext : Str} (hs : ∃ c ∈ s, c ≠ '.')
    (hext : extWf ext = true) :
    pySplitExt (s ++ ext) = (s, ext) := by
  cases ext with
  | nil => exact absurd hext (by simp [extWf])
  | cons e t =>
    have he : e = '.' := by
      by_contra hne
      unfold extWf at hext
      split at hext
      · rename_i heq
        injection heq with h1 h2
        exact hne h1
      · exact absurd hext (by simp)
    subst he
    have hdt : lastDot t = none := by
      rw [lastDot_eq_none_iff]
      intro c hc
      unfold extWf at hext
      have := List.all_eq_true.mp hext c hc
      simpa using this
    have h1 : lastDot ('.' :: t) = some 0 := by
      rw [lastDot, hdt]
      simp
    have h2 : lastDot (s ++ '.' :: t) = some s.length := by
      simpa using @lastDot_append_some s ('.' :: t) 0 h1
    unfold pySplitExt
    rw [h2]
    have htake : (s ++ '.' :: t).take s.length = s := List.take_left s ('.' :: t)
    have hdrop : (s ++ '.' :: t).drop s.length = '.' :: t := List.drop_left s ('.' :: t)
    simp only [htake, hdrop]
    rcases hs with ⟨c, hc, hne⟩
    rw [if_neg]
    intro hall
    exact hne (by simpa using List.all_eq_true.mp hall c hc)

theorem pySplitExt_concat (p : Str) :
    (pySplitExt p).1 ++ (pySplitExt p).2 = p := by
  unfold pySplitExt
  cases h : lastDot p with
  | none => simp
  | some i =>
    by_cases hall : (p.take i).all (· = '.') = true
    · simp [hall]
    · simp [hall]

theorem pySplitExt_fst_prefix (p : Str) : (pySplitExt p).1 <+: p := by
  refine ⟨(pySplitExt p).2, pySplitExt_concat p⟩

theorem scanListing_isSome_iff {base : Str} {l : List DirEntry} :
    (scanListing base l).isSome = true ↔
      ∃ f ∈ l, f.isFile = true ∧ (pySplitExt f.name).1 = base := by
  induction l with
  | nil => simp [scanListing]
  | cons f rest ih =>
    rw [scanListing]
    by_cases hstem : (pySplitExt f.name).1 = base
    · by_cases hfile : f.isFile = true
      · have hpre : base.isPrefixOf f.name = true := by
          rw [List.isPrefixOf_iff_prefix, ← hstem]
          exact pySplitExt_fst_prefix f.name
        rw [if_pos (by simp [hpre, hfile]), if_pos hstem]
        simp only [Option.isSome_some, true_iff]
        exact ⟨f, List.mem_cons_self f rest, hfile, hstem⟩
      · rw [if_neg (by simp [hfile])]
        rw [ih]
        constructor
        · rintro ⟨g, hg, hgf, hgs⟩
          exact ⟨g, List.mem_cons_of_mem f hg, hgf, hgs⟩
        · rintro ⟨g, hg, hgf, hgs⟩
          rcases List.mem_cons.mp hg with rfl | hg2
          · exact absurd hgf hfile
          · exact ⟨g, hg2, hgf, hgs⟩
    · have hres :
          (if base.isPrefixOf f.name && f.isFile then
            if (pySplitExt f.name).1 = base then some f.name
            else scanListing base rest
          else scanListing base rest) = scanListing base rest := by
        by_cases hc : (base.isPrefixOf f.name && f.isFile) = true
        · rw [if_pos hc, if_neg hstem]
        · rw [if_neg hc]
      rw [hres, ih]
      constructor
      · rintro ⟨g, hg, hgf, hgs⟩
        exact ⟨g, List.mem_cons_of_mem f hg, hgf, hgs⟩
      · rintro ⟨g, hg, hgf, hgs⟩
        rcases List.mem_cons.mp hg with rfl | hg2
        · exact absurd hgs hstem
        · exact ⟨g, hg2, hgf, hgs⟩

theorem scanListing_eq_none {base : Str} {l : List DirEntry}
    (h : ∀ f ∈ l, f.isFile = true → (pySplitExt f.name).1 ≠ base) :
    scanListing base l = none := by
  rw [← Option.not_isSome_iff_eq_none]
  intro hs
  rcases scanListing_isSome_iff.mp hs with ⟨f, hf, hff, hfs⟩
  exact h f hf hff hfs

theorem checkFileExistsJ_str (dir : Option (List DirEntry)) (s : Str) :
    checkFileExistsJ dir (.str s) = .ok (checkFileExists dir s) := by
  cases dir with
  | none => rfl
  | some l =>
    cases l with
    | nil => rfl
    | cons f t => rfl

/-- Claim C7 (confirmed).  In sync mode, with the output directory
listing given, an entry whose `stable_id` has a matching regular file
(stem exactly equal, any extension) is skipped and counted; when no
listing file's stem equals the `stable_id`, the entry is kept.  For a
`stable_id` with at least one non-dot character, the stem of
`stable_id ++ ".png"` is the `stable_id` itself, while the stem of
`stable_id ++ "extra.png"` differs, so the former triggers the skip
and the latter never does. -/
theorem c7_sync_stem_match (listing : List DirEntry) (u s : Str)
    (rest : List (Str × Json)) (td : List (Str × Json)) (sk : Nat)
    (hrest : runSyncLoop (some listing) rest = .ok (td, sk)) :
    ((∃ f ∈ listing, f.isFile = true ∧ (pySplitExt f.name).1 = s) →
      runSyncLoop (some listing) ((u, .str s) :: rest) = .ok (td, sk + 1)) ∧
    ((∀ f ∈ listing, f.isFile = true → (pySplitExt f.name).1 ≠ s) →
      runSyncLoop (some listing) ((u, .str s) :: rest) =
        .ok ((u, .str s) :: td, sk)) ∧
    ((∃ c ∈ s, c ≠ '.') →
      (pySplitExt (s ++ (".png").toList)).1 = s ∧
      (pySplitExt (s ++ ("extra.png").toList)).1 ≠ s) := by
  refine ⟨?_, ?_, ?_⟩
  · intro hex
    have hsome := scanListing_isSome_iff.mpr hex
    rcases Option.isSome_iff_exists.mp hsome with ⟨v, hv⟩
    rw [runSyncLoop, checkFileExistsJ_str]
    simp only [checkFileExists]
    rw [hv, hrest]
  · intro hnone
    have hn := scanListing_eq_none hnone
    rw [runSyncLoop, checkFileExistsJ_str]
    simp only [checkFileExists]
    rw [hn, hrest]
  · intro hs
    constructor
    · rw [pySplitExt_append hs (by decide)]
    · have : s ++ ("extra.png").toList = (s ++ ("extra").toList) ++ (".png").toList := by
        simp
      rw [this, pySplitExt_append ⟨'e', by simp, by decide⟩ (by decide)]
      intro h
      have := congrArg List.length h
      simp at this

/-- Witness for C7: a file `abc12345.png` makes the entry with id
`abc12345` skip and count; a lone `abc12345extra.png` leaves it queued. -/
theorem c7_sync_stem_match_witness :
    runSyncLoop (some [⟨("abc12345.png").toList, true⟩])
      [(("u").toList, .str (("abc12345").toList))] = .ok ([], 1) ∧
    runSyncLoop (some [⟨("abc12345extra.png").toList, true⟩])
      [(("u").toList, .str (("abc12345").toList))] =
      .ok ([(("u").toList, .str (("abc12345").toList))], 0) := by
  constructor
  · exact (c7_sync_stem_match [⟨("abc12345.png").toList, true⟩] (("u").toList)
      (("abc12345").toList) [] [] 0 rfl).1
      ⟨⟨("abc12345.png").toList, true⟩, by simp, rfl, by decide⟩
  · exact (c7_sync_stem_match [⟨("abc12345extra.png").toList, true⟩] (("u").toList)
      (("abc12345").toList) [] [] 0 rfl).2.1 (by decide)

/-! ## Per-item download failure: the claim about `download_photo` -/

/-- Claim C4 as evaluated on the code (code bug).  A transport error
is indeed a per-item failure: `download_photo` returns `None` and the
loop tallies it and continues.  But an I/O error during the write is
not caught — `except` only handles `requests.exceptions.RequestException`
— so the second item's OS error aborts the loop: the third item is
never attempted (two attempts, not three), the loop does not complete,
and the failure tally is not incremented. -/
theorem c4_write_error_aborts :
    downloadPhoto (fun _ => none) .reqError (("a1").toList) = .failure ∧
    dlLoop (fun _ => none) (fun _ => .reqError) []
      [(("u1").toList, .str (("a1").toList)), (("u2").toList, .str (("a2").toList))] =
      (0, 2, 2, [], true) ∧
    dlLoop (fun _ => none) c4Download []
      [(("u1").toList, .str (("a1").toList)),
       (("u2").toList, .str (("a2").toList)),
       (("u3").toList, .str (("a3").toList))] =
      (1, 0, 2,
        [⟨("a1.png").toList, true⟩, ⟨("a2.png").toList, true⟩], false) :=
  ⟨rfl, rfl, rfl⟩

/-! ## Lemmas about the sync and download loops of `main` -/

theorem runSyncLoop_str_ok {listing : List DirEntry}
    {entries : List (Str × Json)}
    (h : ∀ e ∈ entries, ∃ s, e.2 = .str s) :
    ∃ td sk, runSyncLoop (some listing) entries = .ok (td, sk) ∧
      (∀ e ∈ td, e ∈ entries) ∧ td.length + sk = entries.length ∧
      (∀ e ∈ entries, e ∈ td ∨
        ∃ s, e.2 = .str s ∧ (scanListing s listing).isSome = true) := by
  induction entries with
  | nil => exact ⟨[], 0, rfl, by simp, by simp, by simp⟩
  | cons e rest ih =>
    obtain ⟨td, sk, hrun, hsub, hlen, hcov⟩ :=
      ih (fun x hx => h x (List.mem_cons_of_mem e hx))
    obtain ⟨u, pid⟩ := e
    obtain ⟨s, hs⟩ := h (u, pid) (List.mem_cons_self _ _)
    simp only at hs
    subst hs
    cases hscan : scanListing s listing with
    | some v =>
      refine ⟨td, sk + 1, ?_, ?_, by simpa using by omega, ?_⟩
      · rw [runSyncLoop, checkFileExistsJ_str]
        simp only [checkFileExists]
        rw [hscan, hrun]
      · exact fun x hx => List.mem_cons_of_mem _ (hsub x hx)
      · intro x hx
        rcases List.mem_cons.mp hx with rfl | hx2
        · exact Or.inr ⟨s, rfl, by rw [hscan]; rfl⟩
        · rcases hcov x hx2 with hl | hr
          · exact Or.inl hl
          · exact Or.inr hr
    | none =>
      refine ⟨(u, .str s) :: td, sk, ?_, ?_, by simpa using by omega, ?_⟩
      · rw [runSyncLoop, checkFileExistsJ_str]
        simp only [checkFileExists]
        rw [hscan, hrun]
      · intro x hx
        rcases List.mem_cons.mp hx with rfl | hx2
        · exact List.mem_cons_self _ _
        · exact List.mem_cons_of_mem _ (hsub x hx2)
      · intro x hx
        rcases List.mem_cons.mp hx with rfl | hx2
        · exact Or.inl (List.mem_cons_self _ _)
        · rcases hcov x hx2 with hl | hr
          · exact Or.inl (List.mem_cons_of_mem _ hl)
          · exact Or.inr hr

theorem runSyncLoop_all_skip {listing : List DirEntry}
    {entries : List (Str × Json)}
    (h : ∀ e ∈ entries, ∃ s, e.2 = .str s ∧ (scanListing s listing).isSome = true) :
    runSyncLoop (some listing) entries = .ok ([], entries.length) := by
  induction entries with
  | nil => rfl
  | cons e rest ih =>
    obtain ⟨u, pid⟩ := e
    obtain ⟨s, hs, hscan⟩ := h (u, pid) (List.mem_cons_self _ _)
    simp only at hs
    subst hs
    obtain ⟨v, hv⟩ := Option.isSome_iff_exists.mp hscan
    rw [runSyncLoop, checkFileExistsJ_str]
    simp only [checkFileExists]
    rw [hv, ih (fun x hx => h x (List.mem_cons_of_mem _ hx))]
    simp

theorem dlLoop_no_crash {g : Str → Option Str} {download : Str × Str → DlResult}
    {items : List (Str × Json)}
    (h : ∀ e ∈ items, ∀ ct, download (e.1, pyFStr e.2) ≠ .writeError ct) :
    ∀ fs, ∃ s f a fs2, dlLoop g download fs items = (s, f, a, fs2, true) := by
  induction items with
  | nil => exact fun fs => ⟨0, 0, 0, fs, rfl⟩
  | cons e rest ih =>
    intro fs
    obtain ⟨u, pid⟩ := e
    cases hd : download (u, pyFStr pid) with
    | ok ct =>
      obtain ⟨s, f, a, fs2, h2⟩ :=
        ih (fun x hx => h x (List.mem_cons_of_mem _ hx))
          (fsWrite fs (pyFStr pid ++ extFor g ct))
      refine ⟨s + 1, f, a + 1, fs2, ?_⟩
      rw [dlLoop]
      simp only [hd, downloadPhoto]
      rw [h2]
    | reqError =>
      obtain ⟨s, f, a, fs2, h2⟩ :=
        ih (fun x hx => h x (List.mem_cons_of_mem _ hx)) fs
      refine ⟨s, f + 1, a + 1, fs2, ?_⟩
      rw [dlLoop]
      simp only [hd, downloadPhoto]
      rw [h2]
    | writeError ct =>
      exact absurd hd (h (u, pid) (List.mem_cons_self _ _) ct)

theorem dlLoop_all_ok {g : Str → Option Str} {download : Str × Str → DlResult}
    {items : List (Str × Json)}
    (h : ∀ e ∈ items, ∃ ct, download (e.1, pyFStr e.2) = .ok ct) :
    ∀ fs, ∃ fs2,
      dlLoop g download fs items = (items.length, 0, items.length, fs2, true) ∧
      (∀ f ∈ fs, f ∈ fs2) ∧
      (∀ e ∈ items, ∃ ct, download (e.1, pyFStr e.2) = .ok ct ∧
        (DirEntry.mk (pyFStr e.2 ++ extFor g ct) true) ∈ fs2) := by
  induction items with
  | nil => exact fun fs => ⟨fs, rfl, fun f hf => hf, by simp⟩
  | cons e rest ih =>
    intro fs
    obtain ⟨u, pid⟩ := e
    obtain ⟨ct, hct⟩ := h (u, pid) (List.mem_cons_self _ _)
    obtain ⟨fs2, hrun, hmono, hcov⟩ :=
      ih (fun x hx => h x (List.mem_cons_of_mem _ hx))
        (fsWrite fs (pyFStr pid ++ extFor g ct))
    refine ⟨fs2, ?_, ?_, ?_⟩
    · rw [dlLoop]
      simp only [hct, downloadPhoto]
      rw [hrun]
      simp
    · intro f hf
      exact hmono f (by simp [fsWrite, hf])
    · intro x hx
      rcases List.mem_cons.mp hx with rfl | hx2
      · exact ⟨ct, hct, hmono _ (by simp [fsWrite])⟩
      · exact hcov x hx2

theorem extWf_extFallback (ct : Str) : extWf (extFallback ct) = true := by
  unfold extFallback
  split
  · decide
  · split
    · decide
    · split <;> decide

/-! ## Endpoint lemmas about `mainRun` -/

theorem mainRun_resolve_fail {w : World} (h : w.resolved = none) :
    mainRun w = ⟨1, 0, 0, 0, 0, 0, w.fs0⟩ := by
  unfold mainRun
  rw [h]

theorem mainRun_fetch_fail {w : World} {u : Str} (h1 : w.resolved = some u)
    (hu : u ≠ []) (h2 : w.page = none) :
    mainRun w = ⟨1, 0, 0, 0, 0, 0, w.fs0⟩ := by
  have hue : u.isEmpty = false := by
    cases u with
    | nil => exact absurd rfl hu
    | cons a t => rfl
  unfold mainRun
  rw [h1]
  simp only [hue, Bool.false_eq_true, if_false]
  rw [h2]

theorem mainRun_zero_entries {w : World} {u html : Str}
    (h1 : w.resolved = some u) (hu : u ≠ [])
    (h2 : w.page = some html) (hh : html ≠ [])
    (hx : extract (w.scriptsOf html) = .ok []) :
    mainRun w = ⟨0, 0, 0, 0, 0, 0, w.fs0⟩ := by
  have hue : u.isEmpty = false := by
    cases u with
    | nil => exact absurd rfl hu
    | cons a t => rfl
  have hhe : html.isEmpty = false := by
    cases html with
    | nil => exact absurd rfl hh
    | cons a t => rfl
  unfold mainRun
  rw [h1]
  simp only [hue, Bool.false_eq_true, if_false]
  rw [h2]
  simp only [hhe, Bool.false_eq_true, if_false]
  rw [hx]
  rfl

theorem mainRun_sync_error {w : World} {u html : Str}
    {entries : List (Str × Json)}
    (h1 : w.resolved = some u) (hu : u ≠ [])
    (h2 : w.page = some html) (hh : html ≠ [])
    (hx : extract (w.scriptsOf html) = .ok entries) (hne : entries ≠ [])
    (hplan : (if w.sync then runSyncLoop (some (w.fs0.getD [])) entries
              else .ok (entries, 0)) = .error ()) :
    mainRun w = ⟨1, entries.length, 0, 0, 0, 0, some (w.fs0.getD [])⟩ := by
  have hue : u.isEmpty = false := by
    cases u with
    | nil => exact absurd rfl hu
    | cons a t => rfl
  have hhe : html.isEmpty = false := by
    cases html with
    | nil => exact absurd rfl hh
    | cons a t => rfl
  have hlen : ¬ entries.length = 0 := by simp [hne]
  unfold mainRun
  rw [h1]
  simp only [hue, Bool.false_eq_true, if_false]
  rw [h2]
  simp only [hhe, Bool.false_eq_true, if_false]
  rw [hx]
  simp only [if_neg hlen]
  rw [hplan]

theorem mainRun_all_skip {w : World} {u html : Str}
    {entries : List (Str × Json)} {sk : Nat}
    (h1 : w.resolved = some u) (hu : u ≠ [])
    (h2 : w.page = some html) (hh : html ≠ [])
    (hx : extract (w.scriptsOf html) = .ok entries) (hne : entries ≠ [])
    (hplan : (if w.sync then runSyncLoop (some (w.fs0.getD [])) entries
              else .ok (entries, 0)) = .ok ([], sk)) :
    mainRun w = ⟨0, entries.length, sk, 0, 0, 0, some (w.fs0.getD [])⟩ := by
  have hue : u.isEmpty = false := by
    cases u with
    | nil => exact absurd rfl hu
    | cons a t => rfl
  have hhe : html.isEmpty = false := by
    cases html with
    | nil => exact absurd rfl hh
    | cons a t => rfl
  have hlen : ¬ entries.length = 0 := by simp [hne]
  unfold mainRun
  rw [h1]
  simp only [hue, Bool.false_eq_true, if_false]
  rw [h2]
  simp only [hhe, Bool.false_eq_true, if_false]
  rw [hx]
  simp only [if_neg hlen]
  rw [hplan]
  rfl

theorem mainRun_dl {w : World} {u html : Str}
    {entries toDl : List (Str × Json)} {sk s f a : Nat}
    {fs2 : List DirEntry} {done : Bool}
    (h1 : w.resolved = some u) (hu : u ≠ [])
    (h2 : w.page = some html) (hh : html ≠ [])
    (hx : extract (w.scriptsOf html) = .ok entries) (hne : entries ≠ [])
    (hplan : (if w.sync then runSyncLoop (some (w.fs0.getD [])) entries
              else .ok (entries, 0)) = .ok (toDl, sk))
    (htd : toDl ≠ [])
    (hdl : dlLoop w.guessExt w.download (w.fs0.getD []) toDl =
      (s, f, a, fs2, done)) :
    mainRun w =
      ⟨if done then 0 else 1, entries.length, sk, s, f, a, some fs2⟩ := by
  have hue : u.isEmpty = false := by
    cases u with
    | nil => exact absurd rfl hu
    | cons a t => rfl
  have hhe : html.isEmpty = false := by
    cases html with
    | nil => exact absurd rfl hh
    | cons a t => rfl
  have hlen : ¬ entries.length = 0 := by simp [hne]
  have hte : toDl.isEmpty = false := by
    cases toDl with
    | nil => exact absurd rfl htd
    | cons a t => rfl
  unfold mainRun
  rw [h1]
  simp only [hue, Bool.false_eq_true, if_false]
  rw [h2]
  simp only [hhe, Bool.false_eq_true, if_false]
  rw [hx]
  simp only [if_neg hlen]
  rw [hplan]
  simp only [hte, Bool.false_eq_true, if_false]
  rw [hdl]

/-! ## The exit-status claim -/

/-- Claim C8 as amended (corrected).  Failure to resolve or to fetch
exits 1 before any download attempt; a run that reaches extraction and
finds zero entries exits 0; and a run with entries exits 0 no matter
how many downloads fail with transport errors — provided no download
raises an uncaught OS error during its write (and, in sync mode, all
stable ids are strings, so that the sync check raises no uncaught
type error). -/
theorem c8_exit_status (w : World) :
    (w.resolved = none →
      (mainRun w).exit = 1 ∧ (mainRun w).attempted = 0) ∧
    (∀ u, w.resolved = some u → u ≠ [] → w.page = none →
      (mainRun w).exit = 1 ∧ (mainRun w).attempted = 0) ∧
    (∀ u html, w.resolved = some u → u ≠ [] → w.page = some html →
      html ≠ [] → extract (w.scriptsOf html) = .ok [] →
      (mainRun w).exit = 0) ∧
    (∀ u html entries, w.resolved = some u → u ≠ [] → w.page = some html →
      html ≠ [] → extract (w.scriptsOf html) = .ok entries → entries ≠ [] →
      (w.sync = true → ∀ e ∈ entries, ∃ s, e.2 = .str s) →
      (∀ e ∈ entries, ∀ ct, w.download (e.1, pyFStr e.2) ≠ .writeError ct) →
      (mainRun w).exit = 0) := by
  refine ⟨?_, ?_, ?_, ?_⟩
  · intro h
    rw [mainRun_resolve_fail h]
    exact ⟨rfl, rfl⟩
  · intro u h1 hu h2
    rw [mainRun_fetch_fail h1 hu h2]
    exact ⟨rfl, rfl⟩
  · intro u html h1 hu h2 hh hx
    rw [mainRun_zero_entries h1 hu h2 hh hx]
  · intro u html entries h1 hu h2 hh hx hne hstr hnocrash
    cases hsy : w.sync with
    | false =>
      obtain ⟨s, f, a, fs2, hdl⟩ :=
        @dlLoop_no_crash w.guessExt w.download entries hnocrash (w.fs0.getD [])
      rw [mainRun_dl h1 hu h2 hh hx hne
        (show _ = Except.ok (entries, 0) by rw [hsy]; rfl) hne hdl]
      rfl
    | true =>
      obtain ⟨td, sk, hrun, hsub, hlen2, hcov⟩ :=
        @runSyncLoop_str_ok (w.fs0.getD []) entries (hstr hsy)
      by_cases htd : td = []
      · subst htd
        rw [mainRun_all_skip h1 hu h2 hh hx hne (by rw [hsy]; exact hrun)]
      · obtain ⟨s, f, a, fs2, hdl⟩ :=
          @dlLoop_no_crash w.guessExt w.download td
            (fun x hx2 => hnocrash x (hsub x hx2)) (w.fs0.getD [])
        rw [mainRun_dl h1 hu h2 hh hx hne (by rw [hsy]; exact hrun) htd hdl]
        rfl

/-- Claim C8 is refuted: in `wCrash`, resolve and fetch succeed and
one entry is extracted — the claim's "otherwise" case, which it says
exits 0 regardless of download failures — yet the uncaught OS error
of the single download terminates the process with exit status 1. -/
theorem c8_write_error_nonzero_exit :
    wCrash.resolved = some (("u").toList) ∧
    wCrash.page = some (("h").toList) ∧
    (mainRun wCrash).total = 1 ∧
    (mainRun wCrash).exit = 1 := ⟨rfl, rfl, rfl, rfl⟩

/-- Witness for C8: a run whose only download fails with a transport
error still exits 0. -/
theorem c8_exit_status_witness : (mainRun wTransport).exit = 0 :=
  (c8_exit_status wTransport).2.2.2 (("u").toList) (("h").toList)
    [(urlY, .str (("OlxzhFkv").toList))]
    rfl (fun h => List.noConfusion h) rfl (fun h => List.noConfusion h)
    rfl (fun h => List.noConfusion h)
    (fun h => Bool.noConfusion h)
    (fun _ _ _ h => DlResult.noConfusion h)

/-! ## The idempotence claim -/

theorem pyFStr_str (s : Str) : pyFStr (.str s) = s := rfl

/-- Claim C9 as amended (corrected).  Running the pipeline twice with
sync mode on, against the same album and output directory, with every
download of the first run succeeding, gives a second run that
downloads nothing and skips exactly the first run's total — provided
every discovered `stable_id` is a string with at least one non-dot
character (a 6-character raw identifier yields the empty `stable_id`,
whose written file `.png` is treated as a hidden file with a
non-matching stem, breaking idempotence), and provided the extension
table only returns well-formed dot-extensions, as the real one does. -/
theorem c9_sync_idempotent (w : World) (u html : Str)
    (entries toDl : List (Str × Json)) (sk : Nat)
    (hsync : w.sync = true)
    (hres : w.resolved = some u) (hu : u ≠ [])
    (hpage : w.page = some html) (hh : html ≠ [])
    (hx : extract (w.scriptsOf html) = .ok entries)
    (hids : ∀ e ∈ entries, ∃ s, e.2 = .str s ∧ ∃ c ∈ s, c ≠ '.')
    (hplan : runSyncLoop (some (w.fs0.getD [])) entries = .ok (toDl, sk))
    (hdl : ∀ e ∈ toDl, ∃ ct, w.download (e.1, pyFStr e.2) = .ok ct)
    (hext : ∀ ct, extWf (extFor w.guessExt ct) = true) :
    (mainRun { w with fs0 := (mainRun w).fsAfter }).attempted = 0 ∧
    (mainRun { w with fs0 := (mainRun w).fsAfter }).succeeded = 0 ∧
    (mainRun { w with fs0 := (mainRun w).fsAfter }).skipped = (mainRun w).total ∧
    (mainRun { w with fs0 := (mainRun w).fsAfter }).exit = 0 := by
  by_cases hne : entries = []
  · subst hne
    have hr1 : mainRun w = ⟨0, 0, 0, 0, 0, 0, w.fs0⟩ :=
      mainRun_zero_entries hres hu hpage hh hx
    have hr2 : mainRun { w with fs0 := (mainRun w).fsAfter } =
        ⟨0, 0, 0, 0, 0, 0, ({ w with fs0 := (mainRun w).fsAfter } : World).fs0⟩ :=
      @mainRun_zero_entries { w with fs0 := (mainRun w).fsAfter } u html
        hres hu hpage hh hx
    rw [hr2, hr1]
    exact ⟨rfl, rfl, rfl, rfl⟩
  · -- recover the structural facts about the first sync partition
    have hstr : ∀ e ∈ entries, ∃ s, e.2 = .str s := by
      intro e he
      obtain ⟨s, hs, -⟩ := hids e he
      exact ⟨s, hs⟩
    obtain ⟨td', sk', hrun', hsub', hlen', hcov'⟩ :=
      @runSyncLoop_str_ok (w.fs0.getD []) entries hstr
    have hdet : td' = toDl ∧ sk' = sk := by
      have h := hrun'.symm.trans hplan
      simp only [Except.ok.injEq, Prod.mk.injEq] at h
      exact h
    obtain ⟨rfl, rfl⟩ := hdet
    by_cases htd : td' = []
    · -- first run: everything already present; nothing changes on disk
      subst htd
      have hr1 : mainRun w =
          ⟨0, entries.length, sk', 0, 0, 0, some (w.fs0.getD [])⟩ :=
        mainRun_all_skip hres hu hpage hh hx hne (by rw [hsync]; exact hplan)
      have hcover : ∀ e ∈ entries, ∃ s, e.2 = .str s ∧
          (scanListing s (w.fs0.getD [])).isSome = true := by
        intro e he
        rcases hcov' e he with hl | hr
        · exact absurd hl (by simp)
        · exact hr
      have hplan2 : runSyncLoop (some (w.fs0.getD [])) entries =
          .ok ([], entries.length) := runSyncLoop_all_skip hcover
      have hfs2 : ({ w with fs0 := (mainRun w).fsAfter } : World).fs0 =
          some (w.fs0.getD []) := by
        show (mainRun w).fsAfter = _
        rw [hr1]
      have hr2 : mainRun { w with fs0 := (mainRun w).fsAfter } =
          ⟨0, entries.length, entries.length, 0, 0, 0,
            some (({ w with fs0 := (mainRun w).fsAfter } : World).fs0.getD [])⟩ :=
        @mainRun_all_skip { w with fs0 := (mainRun w).fsAfter } u html entries
          entries.length hres hu hpage hh hx hne
          (by
            show (if w.sync = true then _ else _) = _
            rw [hsync, hfs2]
            exact hplan2)
      rw [hr2, hr1]
      exact ⟨rfl, rfl, rfl, rfl⟩
    · -- first run: the queued items are all downloaded and written
      obtain ⟨fs2, hdlrun, hmono, hcov2⟩ :=
        @dlLoop_all_ok w.guessExt w.download td' hdl (w.fs0.getD [])
      have hr1 : mainRun w =
          ⟨if true then 0 else 1, entries.length, sk', td'.length, 0,
            td'.length, some fs2⟩ :=
        mainRun_dl hres hu hpage hh hx hne (by rw [hsync]; exact hplan)
          htd hdlrun
      have hcover : ∀ e ∈ entries, ∃ s, e.2 = .str s ∧
          (scanListing s fs2).isSome = true := by
        intro e he
        obtain ⟨s, hs, hnd⟩ := hids e he
        refine ⟨s, hs, ?_⟩
        rcases hcov' e he with hl | hr
        · -- downloaded in the first run: its written file is in fs2
          obtain ⟨ct, hct, hfile⟩ := hcov2 e hl
          rw [scanListing_isSome_iff]
          refine ⟨⟨pyFStr e.2 ++ extFor w.guessExt ct, true⟩, hfile, rfl, ?_⟩
          rw [hs, pyFStr_str, pySplitExt_append hnd (hext ct)]
        · -- already present before the first run, and fs2 extends fs1
          obtain ⟨s2, hs2, hsome1⟩ := hr
          have hss : s2 = s := by
            rw [hs] at hs2
            injection hs2.symm
          subst hss
          rw [scanListing_isSome_iff] at hsome1 ⊢
          obtain ⟨f, hf, hff, hfs⟩ := hsome1
          exact ⟨f, hmono f hf, hff, hfs⟩
      have hplan2 : runSyncLoop (some fs2) entries =
          .ok ([], entries.length) := runSyncLoop_all_skip hcover
      have hfs2 : ({ w with fs0 := (mainRun w).fsAfter } : World).fs0 =
          some fs2 := by
        show (mainRun w).fsAfter = _
        rw [hr1]
      have hr2 : mainRun { w with fs0 := (mainRun w).fsAfter } =
          ⟨0, entries.length, entries.length, 0, 0, 0,
            some (({ w with fs0 := (mainRun w).fsAfter } : World).fs0.getD [])⟩ :=
        @mainRun_all_skip { w with fs0 := (mainRun w).fsAfter } u html entries
          entries.length hres hu hpage hh hx hne
          (by
            show (if w.sync = true then _ else _) = _
            rw [hsync, hfs2]
            exact hplan2)
      rw [hr2, hr1]
      exact ⟨rfl, rfl, rfl, rfl⟩

/-- Claim C9 is refuted: over the album whose raw identifier has
exactly 6 characters, the first sync-mode run succeeds everywhere
(exit 0, no failures, one entry found), yet the second run attempts
one download again and skips nothing: the empty `stable_id` produced
a hidden-style file `.png` whose stem does not match. -/
theorem c9_short_id_not_idempotent :
    (mainRun wShortId).exit = 0 ∧ (mainRun wShortId).failed = 0 ∧
    (mainRun wShortId).total = 1 ∧ wShortId.sync = true ∧
    (mainRun { wShortId with fs0 := (mainRun wShortId).fsAfter }).attempted = 1 ∧
    (mainRun { wShortId with fs0 := (mainRun wShortId).fsAfter }).skipped = 0 :=
  ⟨rfl, rfl, rfl, rfl, rfl, rfl⟩

/-- Witness for C9 over the album with an 18-character identifier:
the second run downloads nothing and skips the first run's total. -/
theorem c9_sync_idempotent_witness :
    (mainRun { wLongId with fs0 := (mainRun wLongId).fsAfter }).attempted = 0 ∧
    (mainRun { wLongId with fs0 := (mainRun wLongId).fsAfter }).skipped =
      (mainRun wLongId).total := by
  have h := c9_sync_idempotent wLongId (("u").toList) (("h").toList)
    [(urlY, .str (("OlxzhFkv").toList))] [(urlY, .str (("OlxzhFkv").toList))] 0
    rfl rfl (fun h => List.noConfusion h) rfl (fun h => List.noConfusion h)
    rfl
    (by
      intro e he
      rw [List.mem_singleton] at he
      subst he
      exact ⟨("OlxzhFkv").toList, rfl, 'O', by decide, by decide⟩)
    rfl
    (by
      intro e he
      exact ⟨("image/png").toList, rfl⟩)
    (fun ct => extWf_extFallback ct)
  exact ⟨h.1, h.2.2.1⟩

end GPhotoGet
